import Mathlib

/-!
Shallow embedding of the "Radial Ripple Lab" sketch (src/sketch.js) and
verification of the specified properties of its ripple sequencer, tile
state machine and voice-dispatch parameter mapping.

Numbers of the JavaScript source are modelled as real numbers (`ℝ`);
grid indices, tile states and state counts as integers (`ℤ`), since the
source only ever holds integer values in them.  The JavaScript `%`
operator truncates toward zero, hence `Int.tmod`.
-/

namespace Dichro

/-! ## Data model (src/sketch.js: config, tile fields) -/

/-- `MODULE_TYPES = ['circle', 'bar', 'block', 'diagonal']` as a closed
enumeration. -/
inductive ModuleType
  | circle
  | bar
  | block
  | diagonal
deriving DecidableEq

/-- `moduleStateCount` (src/sketch.js:350-363). -/
def moduleStateCount : ModuleType → ℤ
  | .circle => 6
  | .bar => 5
  | .block => 5
  | .diagonal => 5

/-- `emptyStateIndex` (src/sketch.js:182-185). -/
def emptyStateIndex : ModuleType → ℤ
  | .circle => 5
  | _ => 4

/-- `GRID_COLS = 8`. -/
def GRID_COLS : ℤ := 8

/-- `GRID_ROWS = 6`. -/
def GRID_ROWS : ℤ := 6

/-- One grid tile: the fields of the object pushed in
`buildTilesFromSeed` (src/sketch.js:219-239) that the ripple sequencer,
the tile state machine and voice dispatch read or write.  Pixel-geometry
and animation fields are rendering-only and omitted. -/
structure Tile where
  col : ℤ
  row : ℤ
  moduleType : ModuleType
  state : ℤ
  stateCount : ℤ
  colorIndex : ℤ
  dist : ℝ
  prevAmp : ℝ
  currentAmp : ℝ

/-- p5's `constrain(x, lo, hi)` on integer values: clamp into `[lo, hi]`. -/
def constrain (x lo hi : ℤ) : ℤ := max lo (min x hi)

/-- `advanceTileState` (src/sketch.js:650-655):
`tile.state = ((tile.state + direction) % n + n) % n` with JavaScript's
truncating `%`. -/
def advanceTileState (t : Tile) (direction : ℤ) : Tile :=
  { t with
    state := (((t.state + direction).tmod t.stateCount) + t.stateCount).tmod
      t.stateCount }

/-- `changeTileModule` (src/sketch.js:657-665); the randomly chosen
replacement type (`random(choices)`) is passed as `newType`. -/
def changeTileModule (t : Tile) (newType : ModuleType) : Tile :=
  { t with
    moduleType := newType
    stateCount := moduleStateCount newType
    state := constrain t.state 0 (moduleStateCount newType - 1) }

/-- Per-tile snapshot stored by `storeScene` (src/sketch.js:883-887). -/
structure TileSnap where
  moduleType : ModuleType
  state : ℤ
  colorIndex : ℤ

/-- The per-tile body of `recallScene` (src/sketch.js:906-914). -/
def recallTileSnap (t : Tile) (snap : TileSnap) : Tile :=
  { t with
    moduleType := snap.moduleType
    stateCount := moduleStateCount snap.moduleType
    state := constrain snap.state 0 (moduleStateCount snap.moduleType - 1)
    colorIndex := snap.colorIndex }

/-- `densityBiasForRow` (src/sketch.js:176-180). -/
noncomputable def densityBiasForRow (row : ℤ) : ℝ :=
  if GRID_ROWS ≤ 1 then 0.5 else (row : ℝ) / ((GRID_ROWS : ℝ) - 1)

/-- `pickInitialState` (src/sketch.js:187-202).  `r` stands for the
`random()` draw in `[0,1)` and `u` for `floor(random(n - 1))`, an integer
in `[0, n - 2]`. -/
noncomputable def pickInitialState (mt : ModuleType) (row : ℤ) (r : ℝ)
    (u : ℤ) : ℤ :=
  let emptyIndex := emptyStateIndex mt
  if r > densityBiasForRow row then emptyIndex
  else if u ≥ emptyIndex then u + 1 else u

/-- The tile object pushed by `buildTilesFromSeed` (src/sketch.js:219-239),
restricted to the modelled fields; `mt` is `moduleTypeForCol(col)` and
`colorIndex` the `floor(random(3))` draw. -/
noncomputable def mkBuiltTile (mt : ModuleType) (col row colorIndex : ℤ)
    (r : ℝ) (u : ℤ) : Tile :=
  { col := col
    row := row
    moduleType := mt
    state := pickInitialState mt row r u
    stateCount := moduleStateCount mt
    colorIndex := colorIndex
    dist := 0
    prevAmp := 0
    currentAmp := 0 }

/-- The implicit per-tile invariant: the state is a valid index for the
current glyph type's state count. -/
def TileInv (t : Tile) : Prop :=
  0 ≤ t.state ∧ t.state < t.stateCount ∧
    t.stateCount = moduleStateCount t.moduleType

/-! ## Ripple sequencer state (module-level globals of src/sketch.js) -/

/-- The ripple-sequencer globals: `tiles`, `originTile` (kept as its grid
index), `bpm`, `rippleSpeed`, `maxRippleDist`, `ripplePos`,
`rippleCycleLength` (src/sketch.js:71-99). -/
structure RippleState where
  tiles : List Tile
  originTile : Option (ℤ × ℤ)
  bpm : ℝ
  rippleSpeed : ℝ
  maxRippleDist : ℝ
  ripplePos : ℝ
  rippleCycleLength : ℝ

/-- `computeRippleDistances` (src/sketch.js:277-295): per tile, Euclidean
distance in grid-index space to the origin; amplitudes reset; the running
maximum of the distances; `rippleCycleLength = maxRippleDist + 2.0`;
`ripplePos = 0`.  Returns the state unchanged when `originTile` is unset. -/
noncomputable def computeRippleDistances (s : RippleState) : RippleState :=
  match s.originTile with
  | none => s
  | some o =>
    let tiles' := s.tiles.map fun t =>
      let dx : ℝ := (t.col : ℝ) - (o.1 : ℝ)
      let dy : ℝ := (t.row : ℝ) - (o.2 : ℝ)
      { t with
        dist := Real.sqrt (dx * dx + dy * dy)
        prevAmp := 0
        currentAmp := 0 }
    let maxd := tiles'.foldl (fun acc t => if t.dist > acc then t.dist else acc) 0
    { s with
      tiles := tiles'
      maxRippleDist := maxd
      rippleCycleLength := maxd + 2
      ripplePos := 0 }

/-- The Gaussian shell of `updateRipple` (src/sketch.js:318-329):
`delta = |d - ripplePos|`, `x = delta / width` with `width = 0.9`, and
`amp = exp(-0.5 * x * x)`. -/
noncomputable def rippleAmp (d pos : ℝ) : ℝ :=
  Real.exp (-0.5 * ((|d - pos|) / 0.9) * ((|d - pos|) / 0.9))

/-- `beatsPerSecond = (bpm / 60) * rippleSpeed` (src/sketch.js:301). -/
noncomputable def beatsPerSecond (s : RippleState) : ℝ :=
  (s.bpm / 60) * s.rippleSpeed

/-- `distancePerBeat = maxRippleDist / 2.0` (src/sketch.js:304). -/
noncomputable def distancePerBeat (s : RippleState) : ℝ :=
  s.maxRippleDist / 2

/-- `radialSpeed = beatsPerSecond * distancePerBeat` (src/sketch.js:305). -/
noncomputable def radialSpeed (s : RippleState) : ℝ :=
  beatsPerSecond s * distancePerBeat s

/-- The cycle length used by the wrap, after the defensive reset
`if (rippleCycleLength <= 0) rippleCycleLength = maxRippleDist + 2.0`
(src/sketch.js:309-311). -/
noncomputable def effectiveCycle (s : RippleState) : ℝ :=
  if s.rippleCycleLength ≤ 0 then s.maxRippleDist + 2 else s.rippleCycleLength

/-- The advanced-and-wrapped radial position of one `updateRipple` frame
(src/sketch.js:307-315): `ripplePos += radialSpeed * dt`, then
`if (ripplePos > L) ripplePos -= L * floor(ripplePos / L)`. -/
noncomputable def newRipplePos (dt : ℝ) (s : RippleState) : ℝ :=
  let pos1 := s.ripplePos + radialSpeed s * dt
  if pos1 > effectiveCycle s then
    pos1 - effectiveCycle s * (⌊pos1 / effectiveCycle s⌋ : ℤ)
  else pos1

/-- `updateRipple(dt)` (src/sketch.js:297-341): early return when the
origin is unset or `maxRippleDist <= 0`; otherwise advance and wrap the
radial position and, for every tile, overwrite `currentAmp` and then
`prevAmp` with the freshly sampled Gaussian amplitude. -/
noncomputable def updateRipple (dt : ℝ) (s : RippleState) : RippleState :=
  if s.originTile = none ∨ s.maxRippleDist ≤ 0 then s
  else
    let pos2 := newRipplePos dt s
    { s with
      ripplePos := pos2
      rippleCycleLength := effectiveCycle s
      tiles := s.tiles.map fun t =>
        let amp := rippleAmp t.dist pos2
        { t with currentAmp := amp, prevAmp := amp } }

/-- The edge-trigger comparison of `updateRipple` (src/sketch.js:335):
`prev < triggerThreshold && amp >= triggerThreshold` with
`triggerThreshold = 0.7`. -/
def rippleTriggerFired (prev amp : ℝ) : Prop :=
  prev < 0.7 ∧ 0.7 ≤ amp

/-- Tile `i` fires its trigger (`handleRippleOnTile` is called for it)
during the `updateRipple dt` frame applied to state `s`: the frame is not
skipped by the guard, and the tile's pre-frame `prevAmp` and freshly
sampled amplitude straddle the threshold. -/
noncomputable def rippleFrameTriggered (dt : ℝ) (s : RippleState) (i : ℕ) : Prop :=
  ¬(s.originTile = none ∨ s.maxRippleDist ≤ 0) ∧
  ∃ h : i < s.tiles.length,
    rippleTriggerFired (s.tiles.get ⟨i, h⟩).prevAmp
      (rippleAmp (s.tiles.get ⟨i, h⟩).dist (newRipplePos dt s))

open Classical in
/-- Number of frames among the first `N` frames of repeated
`updateRipple dt` in which tile `i` fires its trigger. -/
noncomputable def rippleTriggerCount (dt : ℝ) (s : RippleState) (i N : ℕ) : ℕ :=
  ((Finset.range N).filter fun k =>
    rippleFrameTriggered dt ((updateRipple dt)^[k] s) i).card

/-! ## Voice dispatch parameter mapping (src/sketch.js:995-1217) -/

/-- p5's `lerp(start, stop, amt) = start + (stop - start) * amt`. -/
noncomputable def lerp (a b t : ℝ) : ℝ := a + (b - a) * t

/-- The stereo pan of `connectVoiceToOutput` (src/sketch.js:1012-1018):
`lerp(-0.8, 0.8, GRID_COLS > 1 ? col / (GRID_COLS - 1) : 0.5)`. -/
noncomputable def panForCol (col : ℤ) : ℝ :=
  lerp (-0.8) 0.8
    (if 1 < GRID_COLS then (col : ℝ) / ((GRID_COLS : ℝ) - 1) else 0.5)

/-- `stateNorm = stateCount > 1 ? state / (stateCount - 1) : 0.0`
(src/sketch.js:1042-1043 and the analogous lines of the other grains). -/
noncomputable def stateNorm (t : Tile) : ℝ :=
  if 1 < t.stateCount then (t.state : ℝ) / ((t.stateCount : ℝ) - 1) else 0

/-- Bell-grain duration `lerp(0.25, 0.9, amp)` (src/sketch.js:1045). -/
noncomputable def bellDuration (amp : ℝ) : ℝ := lerp 0.25 0.9 amp

/-- Woodblock-grain duration `lerp(0.04, 0.14, 1.0 - stateNorm)`
(src/sketch.js:1090). -/
noncomputable def woodBlockDuration (sn : ℝ) : ℝ := lerp 0.04 0.14 (1 - sn)

/-- Chord-grain duration `lerp(0.18, 0.6, stateNorm)` (src/sketch.js:1137). -/
noncomputable def chordDuration (sn : ℝ) : ℝ := lerp 0.18 0.6 sn

/-- Metallic-grain duration `lerp(0.18, 0.7, amp)` (src/sketch.js:1193). -/
noncomputable def metallicDuration (amp : ℝ) : ℝ := lerp 0.18 0.7 amp

/-! ## Concrete states used as witnesses -/

/-- A tile with given grid index and all other fields at their initial
values (concrete stand-in for the tiles of `buildTilesFromSeed`; only
`col`/`row` matter to the ripple distance field). -/
def mkTile (c r : ℤ) : Tile := ⟨c, r, .circle, 0, 6, 0, 0, 0, 0⟩

/-- The 8×6 grid of the sketch, row-major as built by
`buildTilesFromSeed`. -/
def gridTiles : List Tile :=
  (List.range 6).flatMap fun r : ℕ => (List.range 8).map fun c : ℕ =>
    mkTile (c : ℤ) (r : ℤ)

/-- The sketch's ripple state right before `computeRippleDistances`, with
the default center origin `(4, 3)` and `bpm = 96`. -/
def sketchState : RippleState := ⟨gridTiles, some (4, 3), 96, 1, 0, 0, 0⟩

/-- A 3×1 grid with origin at its left end, `bpm = 60`. -/
def rowState : RippleState :=
  ⟨[mkTile 0 0, mkTile 1 0, mkTile 2 0], some (0, 0), 60, 1, 0, 0, 0⟩

/-- A 2×1 grid with origin at its left end, `bpm = 60`. -/
def pairState : RippleState :=
  ⟨[mkTile 0 0, mkTile 1 0], some (0, 0), 60, 1, 0, 0, 0⟩

/-- The degenerate single-cell grid. -/
def singleState : RippleState := ⟨[mkTile 0 0], some (0, 0), 96, 1, 0, 0, 0⟩

/-- A grid with a single tile at distance 2 from the origin `(0, 0)`,
`bpm = 60`. -/
def farState : RippleState := ⟨[mkTile 2 0], some (0, 0), 60, 1, 0, 0, 0⟩

/-! ## Lemmas about the JavaScript double-mod idiom -/

theorem tmod_neg_left (a n : ℤ) : (-a).tmod n = -(a.tmod n) := by
  rw [Int.tmod_def, Int.tmod_def, Int.neg_tdiv]
  ring

theorem js_double_mod_mem (a n : ℤ) (hn : 0 < n) :
    0 ≤ ((a.tmod n) + n).tmod n ∧ ((a.tmod n) + n).tmod n < n := by
  have hlow : -n < a.tmod n := by
    rcases le_or_lt 0 a with ha | ha
    · have := Int.tmod_nonneg n ha
      linarith
    · have hrw : a.tmod n = -((-a).tmod n) := by
        rw [tmod_neg_left, neg_neg]
      have := Int.tmod_lt_of_pos (-a) hn
      rw [hrw]
      linarith
  have hpos : 0 ≤ a.tmod n + n := by linarith
  have heq : ((a.tmod n) + n).tmod n = ((a.tmod n) + n) % n :=
    Int.tmod_eq_emod hpos (le_of_lt hn)
  constructor
  · rw [heq]; exact Int.emod_nonneg _ (ne_of_gt hn)
  · rw [heq]; exact Int.emod_lt_of_pos _ hn

/-! ## Basic facts about the amplitude sampler and the frame update -/

theorem rippleAmp_pos (d pos : ℝ) : 0 < rippleAmp d pos :=
  Real.exp_pos _

theorem rippleAmp_le_one (d pos : ℝ) : rippleAmp d pos ≤ 1 := by
  unfold rippleAmp
  rw [Real.exp_le_one_iff]
  nlinarith [mul_self_nonneg ((|d - pos|) / 0.9)]

theorem rippleAmp_eq_sq (d pos : ℝ) :
    rippleAmp d pos = Real.exp (-0.5 * ((|d - pos|) / 0.9) ^ 2) := by
  unfold rippleAmp
  ring_nf

theorem guard_passes {s : RippleState} (hOrig : ¬s.originTile = none)
    (hMax : 0 < s.maxRippleDist) :
    ¬(s.originTile = none ∨ s.maxRippleDist ≤ 0) := by
  push_neg
  exact ⟨hOrig, hMax⟩

theorem updateRipple_not_skipped {dt : ℝ} {s : RippleState}
    (h : ¬(s.originTile = none ∨ s.maxRippleDist ≤ 0)) :
    updateRipple dt s =
      { s with
        ripplePos := newRipplePos dt s
        rippleCycleLength := effectiveCycle s
        tiles := s.tiles.map fun t =>
          { t with
            currentAmp := rippleAmp t.dist (newRipplePos dt s)
            prevAmp := rippleAmp t.dist (newRipplePos dt s) } } := by
  unfold updateRipple
  rw [if_neg h]

theorem newRipplePos_eq (dt : ℝ) (s : RippleState) :
    newRipplePos dt s =
      if s.ripplePos + radialSpeed s * dt > effectiveCycle s then
        (s.ripplePos + radialSpeed s * dt) - effectiveCycle s *
          (⌊(s.ripplePos + radialSpeed s * dt) / effectiveCycle s⌋ : ℤ)
      else s.ripplePos + radialSpeed s * dt := rfl

theorem updateRipple_tiles_length (dt : ℝ) (s : RippleState) :
    (updateRipple dt s).tiles.length = s.tiles.length := by
  unfold updateRipple
  split_ifs <;> simp

theorem constrain_mem (x lo hi : ℤ) (h : lo ≤ hi) :
    lo ≤ constrain x lo hi ∧ constrain x lo hi ≤ hi := by
  unfold constrain
  constructor
  · exact le_max_left _ _
  · exact max_le h (min_le_right _ _)

theorem moduleStateCount_pos (mt : ModuleType) : 0 < moduleStateCount mt := by
  cases mt <;> decide

/-- **C10.** For every tile, `state` is an integer in `[0, stateCount)` and
`stateCount` equals the state count of the current glyph type, established
at construction (`buildTilesFromSeed` / `pickInitialState`) and preserved
by `advanceTileState` (any integer step, in particular `+1` and `-1`),
`changeTileModule`, and a `recallScene` snapshot restore. -/
theorem C10_tile_state_invariant :
    (∀ (mt : ModuleType) (col row colorIndex : ℤ) (r : ℝ) (u : ℤ),
      0 ≤ u → u < moduleStateCount mt - 1 →
      TileInv (mkBuiltTile mt col row colorIndex r u)) ∧
    (∀ (t : Tile) (direction : ℤ), TileInv t →
      TileInv (advanceTileState t direction)) ∧
    (∀ (t : Tile) (newType : ModuleType),
      TileInv (changeTileModule t newType)) ∧
    (∀ (t : Tile) (snap : TileSnap), TileInv (recallTileSnap t snap)) := by
  refine ⟨?_, ?_, ?_, ?_⟩
  · intro mt col row colorIndex r u hu0 hu1
    refine ⟨?_, ?_, rfl⟩ <;>
      · show _
        unfold mkBuiltTile pickInitialState
        cases mt <;>
          simp only [moduleStateCount, emptyStateIndex] at * <;>
          split_ifs <;> omega
  · intro t direction ⟨h0, h1, h2⟩
    have hn : 0 < t.stateCount := lt_of_le_of_lt h0 h1
    obtain ⟨hl, hr⟩ := js_double_mod_mem (t.state + direction) t.stateCount hn
    exact ⟨hl, hr, h2⟩
  · intro t newType
    have hn : 0 < moduleStateCount newType := moduleStateCount_pos newType
    obtain ⟨hl, hr⟩ := constrain_mem t.state 0 (moduleStateCount newType - 1)
      (by omega)
    refine ⟨?_, ?_, rfl⟩
    · show (0 : ℤ) ≤ constrain t.state 0 (moduleStateCount newType - 1)
      exact hl
    · show constrain t.state 0 (moduleStateCount newType - 1) <
        moduleStateCount newType
      omega
  · intro t snap
    have hn : 0 < moduleStateCount snap.moduleType :=
      moduleStateCount_pos snap.moduleType
    obtain ⟨hl, hr⟩ := constrain_mem snap.state 0
      (moduleStateCount snap.moduleType - 1) (by omega)
    refine ⟨?_, ?_, rfl⟩
    · show (0 : ℤ) ≤ constrain snap.state 0
        (moduleStateCount snap.moduleType - 1)
      exact hl
    · show constrain snap.state 0 (moduleStateCount snap.moduleType - 1) <
        moduleStateCount snap.moduleType
      omega

/-! ## Evaluation of the small concrete states -/

theorem computeRippleDistances_pairState :
    (computeRippleDistances pairState).originTile = some (0, 0) ∧
    (computeRippleDistances pairState).maxRippleDist = 1 ∧
    (computeRippleDistances pairState).tiles.length = 2 := by
  unfold computeRippleDistances pairState mkTile
  norm_num [Real.sqrt_zero, Real.sqrt_one]

/-- **C1.**  In a non-skipped `updateRipple dt` frame, every tile's written
amplitude equals `exp(-0.5 * ((|distance - radialPosition|) / 0.9)^2)` for
the single post-advance radial position of that frame, and is positive and
at most `1`. -/
theorem C1_amplitude_formula (dt : ℝ) (s : RippleState)
    (hOrig : ¬s.originTile = none) (hMax : 0 < s.maxRippleDist)
    (i : ℕ) (hi : i < s.tiles.length)
    (hi2 : i < (updateRipple dt s).tiles.length) :
    ((updateRipple dt s).tiles.get ⟨i, hi2⟩).currentAmp =
      Real.exp (-0.5 *
        ((|(s.tiles.get ⟨i, hi⟩).dist - (updateRipple dt s).ripplePos|) /
          0.9) ^ 2) ∧
    0 < ((updateRipple dt s).tiles.get ⟨i, hi2⟩).currentAmp ∧
    ((updateRipple dt s).tiles.get ⟨i, hi2⟩).currentAmp ≤ 1 := by
  have hg := guard_passes hOrig hMax
  have hupd := @updateRipple_not_skipped dt s hg
  have hlen : i < (s.tiles.map fun t =>
      { t with
        currentAmp := rippleAmp t.dist (newRipplePos dt s)
        prevAmp := rippleAmp t.dist (newRipplePos dt s) }).length := by
    simpa using hi
  have hget : ((updateRipple dt s).tiles.get ⟨i, hi2⟩) =
      { (s.tiles.get ⟨i, hi⟩) with
        currentAmp := rippleAmp (s.tiles.get ⟨i, hi⟩).dist (newRipplePos dt s)
        prevAmp := rippleAmp (s.tiles.get ⟨i, hi⟩).dist (newRipplePos dt s) } := by
    rw [List.get_eq_getElem]
    simp only [hupd, List.getElem_map]
    simp [List.get_eq_getElem]
  have hpos : (updateRipple dt s).ripplePos = newRipplePos dt s := by
    rw [hupd]
  rw [hget, hpos]
  exact ⟨rippleAmp_eq_sq _ _, rippleAmp_pos _ _, rippleAmp_le_one _ _⟩

/-- Witness for C1 at the concrete two-tile state. -/
theorem C1_witness :
    (¬(computeRippleDistances pairState).originTile = none) ∧
    0 < (computeRippleDistances pairState).maxRippleDist ∧
    0 < (((updateRipple 1 (computeRippleDistances pairState)).tiles.getD 0
        (mkTile 0 0)).currentAmp) ∧
    (((updateRipple 1 (computeRippleDistances pairState)).tiles.getD 0
        (mkTile 0 0)).currentAmp) ≤ 1 := by
  obtain ⟨hO, hM, hL⟩ := computeRippleDistances_pairState
  have hOrig : ¬(computeRippleDistances pairState).originTile = none := by
    rw [hO]; simp
  have hMax : 0 < (computeRippleDistances pairState).maxRippleDist := by
    rw [hM]; norm_num
  have hi : 0 < (computeRippleDistances pairState).tiles.length := by
    rw [hL]; norm_num
  have hi2 : 0 <
      (updateRipple 1 (computeRippleDistances pairState)).tiles.length := by
    rw [updateRipple_tiles_length, hL]; norm_num
  obtain ⟨_, h1, h2⟩ := C1_amplitude_formula 1 (computeRippleDistances pairState)
    hOrig hMax 0 hi hi2
  have hD : ((updateRipple 1 (computeRippleDistances pairState)).tiles.getD 0
      (mkTile 0 0)) =
      ((updateRipple 1 (computeRippleDistances pairState)).tiles.get
        ⟨0, hi2⟩) := by
    rw [List.getD_eq_getElem _ _ hi2, List.get_eq_getElem]
  exact ⟨hOrig, hMax, by rw [hD]; exact h1, by rw [hD]; exact h2⟩

/-! ## The running maximum of the distance field -/

theorem if_gt_eq_max (acc d : ℝ) : (if d > acc then d else acc) = max acc d := by
  rcases le_or_lt d acc with h | h
  · rw [if_neg (not_lt.mpr h), max_eq_left h]
  · rw [if_pos h, max_eq_right h.le]

theorem foldl_max_const {l : List ℝ} {a : ℝ} (h : ∀ x ∈ l, x ≤ a) :
    l.foldl max a = a := by
  induction l generalizing a with
  | nil => rfl
  | cons x xs ih =>
    simp only [List.foldl_cons]
    rw [max_eq_left (h x (List.mem_cons_self x xs))]
    exact ih fun y hy => h y (List.mem_cons_of_mem x hy)

theorem foldl_max_eq {l : List ℝ} {a b : ℝ} (hb : ∀ x ∈ l, x ≤ b)
    (ha : a ≤ b) (hmem : b ∈ l) : l.foldl max a = b := by
  induction l generalizing a with
  | nil => cases hmem
  | cons x xs ih =>
    simp only [List.foldl_cons]
    rcases List.mem_cons.mp hmem with rfl | hxs
    · rw [max_eq_right ha]
      exact foldl_max_const fun y hy => hb y (List.mem_cons_of_mem _ hy)
    · exact ih (fun y hy => hb y (List.mem_cons_of_mem _ hy))
        (max_le ha (hb x (List.mem_cons_self _ _))) hxs

theorem computeRippleDistances_maxdist {s : RippleState} {o : ℤ × ℤ}
    (h : s.originTile = some o) :
    (computeRippleDistances s).maxRippleDist =
      (s.tiles.map fun t => Real.sqrt
        (((t.col : ℝ) - (o.1 : ℝ)) * ((t.col : ℝ) - (o.1 : ℝ)) +
          ((t.row : ℝ) - (o.2 : ℝ)) * ((t.row : ℝ) - (o.2 : ℝ)))).foldl max 0 := by
  simp only [computeRippleDistances, h]
  rw [List.foldl_map, List.foldl_map]
  apply List.foldl_ext
  intro a t ht
  exact if_gt_eq_max a _

theorem computeRippleDistances_fields {s : RippleState} {o : ℤ × ℤ}
    (h : s.originTile = some o) :
    (computeRippleDistances s).ripplePos = 0 ∧
    (computeRippleDistances s).rippleCycleLength =
      (computeRippleDistances s).maxRippleDist + 2 ∧
    (computeRippleDistances s).bpm = s.bpm ∧
    (computeRippleDistances s).rippleSpeed = s.rippleSpeed ∧
    (computeRippleDistances s).originTile = some o ∧
    (computeRippleDistances s).tiles.length = s.tiles.length := by
  simp only [computeRippleDistances, h]
  simp

theorem computeRippleDistances_tiles {s : RippleState} {o : ℤ × ℤ}
    (h : s.originTile = some o) :
    (computeRippleDistances s).tiles = s.tiles.map fun t =>
      { t with
        dist := Real.sqrt
          (((t.col : ℝ) - (o.1 : ℝ)) * ((t.col : ℝ) - (o.1 : ℝ)) +
            ((t.row : ℝ) - (o.2 : ℝ)) * ((t.row : ℝ) - (o.2 : ℝ)))
        prevAmp := 0
        currentAmp := 0 } := by
  simp only [computeRippleDistances, h]

theorem mem_gridTiles {t : Tile} (ht : t ∈ gridTiles) :
    ∃ c r : ℕ, c < 8 ∧ r < 6 ∧ t = mkTile (c : ℤ) (r : ℤ) := by
  unfold gridTiles at ht
  rw [List.mem_flatMap] at ht
  obtain ⟨r, hr, ht⟩ := ht
  rw [List.mem_map] at ht
  obtain ⟨c, hc, rfl⟩ := ht
  exact ⟨c, r, List.mem_range.mp hc, List.mem_range.mp hr, rfl⟩

theorem corner_mem_gridTiles : mkTile 0 0 ∈ gridTiles := by
  unfold gridTiles
  rw [List.mem_flatMap]
  refine ⟨0, List.mem_range.mpr (by norm_num), ?_⟩
  rw [List.mem_map]
  exact ⟨0, List.mem_range.mpr (by norm_num), rfl⟩

theorem sqrt_twentyfive : Real.sqrt 25 = 5 := by
  rw [show (25 : ℝ) = 5 ^ 2 by norm_num, Real.sqrt_sq (by norm_num : (0 : ℝ) ≤ 5)]

theorem sketch_maxdist : (computeRippleDistances sketchState).maxRippleDist = 5 := by
  rw [@computeRippleDistances_maxdist sketchState (4, 3) rfl]
  apply foldl_max_eq
  · intro x hx
    obtain ⟨t, ht, rfl⟩ := List.mem_map.mp hx
    obtain ⟨c, r, hc, hr, rfl⟩ := mem_gridTiles ht
    have hc0 : (0 : ℝ) ≤ (c : ℝ) := by positivity
    have hc7 : (c : ℝ) ≤ 7 := by exact_mod_cast Nat.lt_succ_iff.mp hc
    have hr0 : (0 : ℝ) ≤ (r : ℝ) := by positivity
    have hr5 : (r : ℝ) ≤ 5 := by exact_mod_cast Nat.lt_succ_iff.mp hr
    have harg : ((mkTile (c : ℤ) (r : ℤ)).col : ℝ) = (c : ℝ) ∧
        ((mkTile (c : ℤ) (r : ℤ)).row : ℝ) = (r : ℝ) := by
      constructor <;> simp [mkTile]
    rw [harg.1, harg.2]
    calc Real.sqrt (((c : ℝ) - ((4 : ℤ) : ℝ)) * ((c : ℝ) - ((4 : ℤ) : ℝ)) +
          ((r : ℝ) - ((3 : ℤ) : ℝ)) * ((r : ℝ) - ((3 : ℤ) : ℝ)))
        ≤ Real.sqrt 25 := by
          apply Real.sqrt_le_sqrt
          push_cast
          nlinarith [mul_nonneg hc0 (by linarith : (0 : ℝ) ≤ 8 - (c : ℝ)),
            mul_nonneg hr0 (by linarith : (0 : ℝ) ≤ 6 - (r : ℝ))]
      _ = 5 := sqrt_twentyfive
  · norm_num
  · rw [List.mem_map]
    refine ⟨mkTile 0 0, corner_mem_gridTiles, ?_⟩
    have : (((mkTile 0 0).col : ℝ) - ((4 : ℤ) : ℝ)) *
          (((mkTile 0 0).col : ℝ) - ((4 : ℤ) : ℝ)) +
        (((mkTile 0 0).row : ℝ) - ((3 : ℤ) : ℝ)) *
          (((mkTile 0 0).row : ℝ) - ((3 : ℤ) : ℝ)) = 25 := by
      simp [mkTile]
      norm_num
    rw [this]
    exact sqrt_twentyfive

theorem updateRipple_pos_no_wrap {dt : ℝ} {s : RippleState}
    (hOrig : ¬s.originTile = none) (hMax : 0 < s.maxRippleDist)
    (hle : s.ripplePos + radialSpeed s * dt ≤ effectiveCycle s) :
    (updateRipple dt s).ripplePos = s.ripplePos + radialSpeed s * dt := by
  rw [updateRipple_not_skipped (guard_passes hOrig hMax)]
  show newRipplePos dt s = _
  rw [newRipplePos_eq, if_neg (not_lt.mpr hle)]

theorem computeRippleDistances_rowState :
    (computeRippleDistances rowState).originTile = some (0, 0) ∧
    (computeRippleDistances rowState).maxRippleDist = 2 ∧
    (computeRippleDistances rowState).rippleCycleLength = 4 ∧
    (computeRippleDistances rowState).ripplePos = 0 ∧
    (computeRippleDistances rowState).bpm = 60 ∧
    (computeRippleDistances rowState).rippleSpeed = 1 := by
  have h4 : Real.sqrt 4 = 2 := by
    rw [show (4 : ℝ) = 2 ^ 2 by norm_num, Real.sqrt_sq (by norm_num)]
  unfold computeRippleDistances rowState mkTile
  norm_num [Real.sqrt_zero, Real.sqrt_one, h4]

/-- **C5.**  The radial speed is
`(bpm / 60) * rippleSpeed * (maxRippleDist / 2)` — the wave crosses the
full radius in two beats — and, absent a wrap, the radial position
advances by exactly `radialSpeed * dt`.  Concretely, on the 8×6 grid with
origin `(4, 3)`, tempo 96 BPM and multiplier 1: `maxRippleDist = 5`
(Euclidean distance to the corner `(0, 0)`), the radial speed is `4`
distance-units per second, and `0.5` seconds of playback from position `0`
move the wavefront to radial position `2`. -/
theorem C5_radial_speed_scenario :
    (computeRippleDistances sketchState).maxRippleDist = 5 ∧
    radialSpeed (computeRippleDistances sketchState) = 4 ∧
    (updateRipple 0.5 (computeRippleDistances sketchState)).ripplePos = 2 ∧
    (∀ s : RippleState,
      radialSpeed s = ((s.bpm / 60) * s.rippleSpeed) * (s.maxRippleDist / 2)) ∧
    (∀ (s : RippleState) (dt : ℝ), ¬s.originTile = none →
      0 < s.maxRippleDist →
      s.ripplePos + radialSpeed s * dt ≤ effectiveCycle s →
      (updateRipple dt s).ripplePos = s.ripplePos + radialSpeed s * dt) := by
  obtain ⟨hP, hC, hB, hS, hO, hL⟩ :=
    @computeRippleDistances_fields sketchState (4, 3) rfl
  have hM := sketch_maxdist
  have hspeed : radialSpeed (computeRippleDistances sketchState) = 4 := by
    unfold radialSpeed beatsPerSecond distancePerBeat
    rw [hB, hS, hM]
    norm_num [sketchState]
  have hOrig : ¬(computeRippleDistances sketchState).originTile = none := by
    rw [hO]; simp
  have hMax : 0 < (computeRippleDistances sketchState).maxRippleDist := by
    rw [hM]; norm_num
  have hec : effectiveCycle (computeRippleDistances sketchState) = 7 := by
    unfold effectiveCycle
    rw [hC, hM]
    norm_num
  have hle : (computeRippleDistances sketchState).ripplePos +
      radialSpeed (computeRippleDistances sketchState) * 0.5 ≤
      effectiveCycle (computeRippleDistances sketchState) := by
    rw [hP, hspeed, hec]; norm_num
  refine ⟨hM, hspeed, ?_, fun s => rfl,
    fun s dt hO' hM' hle' => updateRipple_pos_no_wrap hO' hM' hle'⟩
  rw [updateRipple_pos_no_wrap hOrig hMax hle, hP, hspeed]
  norm_num

/-- Witness for C5's general advance law at the concrete 3×1 state. -/
theorem C5_witness :
    (¬(computeRippleDistances rowState).originTile = none) ∧
    0 < (computeRippleDistances rowState).maxRippleDist ∧
    (computeRippleDistances rowState).ripplePos +
        radialSpeed (computeRippleDistances rowState) * 1 ≤
      effectiveCycle (computeRippleDistances rowState) ∧
    (updateRipple 1 (computeRippleDistances rowState)).ripplePos =
      (computeRippleDistances rowState).ripplePos +
        radialSpeed (computeRippleDistances rowState) * 1 := by
  obtain ⟨hO, hM, hC, hP, hB, hS⟩ := computeRippleDistances_rowState
  have hOrig : ¬(computeRippleDistances rowState).originTile = none := by
    rw [hO]; simp
  have hMax : 0 < (computeRippleDistances rowState).maxRippleDist := by
    rw [hM]; norm_num
  have hsp : radialSpeed (computeRippleDistances rowState) = 1 := by
    unfold radialSpeed beatsPerSecond distancePerBeat
    rw [hB, hS, hM]
    norm_num
  have hec : effectiveCycle (computeRippleDistances rowState) = 4 := by
    unfold effectiveCycle
    rw [hC]
    norm_num
  have hle : (computeRippleDistances rowState).ripplePos +
      radialSpeed (computeRippleDistances rowState) * 1 ≤
      effectiveCycle (computeRippleDistances rowState) := by
    rw [hP, hsp, hec]; norm_num
  exact ⟨hOrig, hMax, hle,
    C5_radial_speed_scenario.2.2.2.2 _ 1 hOrig hMax hle⟩

/-- **C6.**  Reassigning the origin (the long-press branch of
`mouseReleased` sets `originTile` and immediately calls
`computeRippleDistances`) synchronously recomputes every tile's
`dist` as the Euclidean grid-index distance to the new origin and
recomputes `maxRippleDist` as the running maximum of exactly those new
distances, and the very next `updateRipple` frame samples every tile's
amplitude from exactly its new distance — never from the old one. -/
theorem C6_origin_reassignment (s : RippleState) (o : ℤ × ℤ) (dt : ℝ)
    (hMax : 0 <
      (computeRippleDistances { s with originTile := some o }).maxRippleDist) :
    (∀ i (hi : i < s.tiles.length)
      (hi' : i < (computeRippleDistances
        { s with originTile := some o }).tiles.length),
      ((computeRippleDistances { s with originTile := some o }).tiles.get
        ⟨i, hi'⟩).dist =
        Real.sqrt
          ((((s.tiles.get ⟨i, hi⟩).col : ℝ) - (o.1 : ℝ)) *
              (((s.tiles.get ⟨i, hi⟩).col : ℝ) - (o.1 : ℝ)) +
            (((s.tiles.get ⟨i, hi⟩).row : ℝ) - (o.2 : ℝ)) *
              (((s.tiles.get ⟨i, hi⟩).row : ℝ) - (o.2 : ℝ)))) ∧
    (computeRippleDistances { s with originTile := some o }).maxRippleDist =
      (s.tiles.map fun t => Real.sqrt
        (((t.col : ℝ) - (o.1 : ℝ)) * ((t.col : ℝ) - (o.1 : ℝ)) +
          ((t.row : ℝ) - (o.2 : ℝ)) * ((t.row : ℝ) - (o.2 : ℝ)))).foldl max 0 ∧
    (∀ i (hi : i < s.tiles.length)
      (hi2 : i < (updateRipple dt (computeRippleDistances
        { s with originTile := some o })).tiles.length),
      ((updateRipple dt (computeRippleDistances
        { s with originTile := some o })).tiles.get ⟨i, hi2⟩).currentAmp =
        rippleAmp
          (Real.sqrt
            ((((s.tiles.get ⟨i, hi⟩).col : ℝ) - (o.1 : ℝ)) *
                (((s.tiles.get ⟨i, hi⟩).col : ℝ) - (o.1 : ℝ)) +
              (((s.tiles.get ⟨i, hi⟩).row : ℝ) - (o.2 : ℝ)) *
                (((s.tiles.get ⟨i, hi⟩).row : ℝ) - (o.2 : ℝ))))
          (newRipplePos dt (computeRippleDistances
            { s with originTile := some o }))) := by
  have horig : ({ s with originTile := some o } : RippleState).originTile =
      some o := rfl
  have htiles := computeRippleDistances_tiles horig
  have hdist : ∀ i (hi : i < s.tiles.length)
      (hi' : i < (computeRippleDistances
        { s with originTile := some o }).tiles.length),
      ((computeRippleDistances { s with originTile := some o }).tiles.get
        ⟨i, hi'⟩).dist =
        Real.sqrt
          ((((s.tiles.get ⟨i, hi⟩).col : ℝ) - (o.1 : ℝ)) *
              (((s.tiles.get ⟨i, hi⟩).col : ℝ) - (o.1 : ℝ)) +
            (((s.tiles.get ⟨i, hi⟩).row : ℝ) - (o.2 : ℝ)) *
              (((s.tiles.get ⟨i, hi⟩).row : ℝ) - (o.2 : ℝ))) := by
    intro i hi hi'
    rw [List.get_eq_getElem]
    simp only [htiles, List.getElem_map]
    simp [List.get_eq_getElem]
  refine ⟨hdist, computeRippleDistances_maxdist horig, ?_⟩
  intro i hi hi2
  have hOrig' : ¬(computeRippleDistances
      { s with originTile := some o }).originTile = none := by
    rw [(computeRippleDistances_fields horig).2.2.2.2.1]
    simp
  have hg := guard_passes hOrig' hMax
  have hupd := @updateRipple_not_skipped dt
    (computeRippleDistances { s with originTile := some o }) hg
  have hi' : i < (computeRippleDistances
      { s with originTile := some o }).tiles.length := by
    rw [(computeRippleDistances_fields horig).2.2.2.2.2]
    exact hi
  have hget : ((updateRipple dt (computeRippleDistances
      { s with originTile := some o })).tiles.get ⟨i, hi2⟩).currentAmp =
      rippleAmp ((computeRippleDistances
        { s with originTile := some o }).tiles.get ⟨i, hi'⟩).dist
        (newRipplePos dt (computeRippleDistances
          { s with originTile := some o })) := by
    rw [List.get_eq_getElem]
    simp only [hupd, List.getElem_map]
    simp [List.get_eq_getElem]
  rw [hget, hdist i hi hi']

/-- Witness for C6: the two-tile grid with its origin moved to `(1, 0)`. -/
theorem C6_witness :
    0 < (computeRippleDistances
      { pairState with originTile := some (1, 0) }).maxRippleDist ∧
    ((computeRippleDistances
        { pairState with originTile := some (1, 0) }).tiles.getD 0
      (mkTile 0 0)).dist =
      Real.sqrt
        ((((mkTile 0 0).col : ℝ) - (((1 : ℤ), (0 : ℤ)).1 : ℝ)) *
            (((mkTile 0 0).col : ℝ) - (((1 : ℤ), (0 : ℤ)).1 : ℝ)) +
          (((mkTile 0 0).row : ℝ) - (((1 : ℤ), (0 : ℤ)).2 : ℝ)) *
            (((mkTile 0 0).row : ℝ) - (((1 : ℤ), (0 : ℤ)).2 : ℝ))) ∧
    ((updateRipple 1 (computeRippleDistances
        { pairState with originTile := some (1, 0) })).tiles.getD 0
      (mkTile 0 0)).currentAmp =
      rippleAmp
        (Real.sqrt
          ((((mkTile 0 0).col : ℝ) - (((1 : ℤ), (0 : ℤ)).1 : ℝ)) *
              (((mkTile 0 0).col : ℝ) - (((1 : ℤ), (0 : ℤ)).1 : ℝ)) +
            (((mkTile 0 0).row : ℝ) - (((1 : ℤ), (0 : ℤ)).2 : ℝ)) *
              (((mkTile 0 0).row : ℝ) - (((1 : ℤ), (0 : ℤ)).2 : ℝ))))
        (newRipplePos 1 (computeRippleDistances
          { pairState with originTile := some (1, 0) })) := by
  have horig : ({ pairState with originTile := some (1, 0) } :
      RippleState).originTile = some (1, 0) := rfl
  have hMax : 0 < (computeRippleDistances
      { pairState with originTile := some (1, 0) }).maxRippleDist := by
    rw [computeRippleDistances_maxdist horig]
    show (0 : ℝ) <
      ([mkTile 0 0, mkTile 1 0].map fun t => Real.sqrt
        (((t.col : ℝ) - ((1 : ℤ) : ℝ)) * ((t.col : ℝ) - ((1 : ℤ) : ℝ)) +
          ((t.row : ℝ) - ((0 : ℤ) : ℝ)) *
            ((t.row : ℝ) - ((0 : ℤ) : ℝ)))).foldl max 0
    norm_num [mkTile, Real.sqrt_one]
  obtain ⟨hd, -, ha⟩ := C6_origin_reassignment pairState (1, 0) 1 hMax
  have hlen0 : (0 : ℕ) < pairState.tiles.length := by
    norm_num [pairState]
  have hlen1 : (0 : ℕ) < (computeRippleDistances
      { pairState with originTile := some (1, 0) }).tiles.length := by
    rw [(computeRippleDistances_fields horig).2.2.2.2.2]
    exact hlen0
  have hlen2 : (0 : ℕ) < (updateRipple 1 (computeRippleDistances
      { pairState with originTile := some (1, 0) })).tiles.length := by
    rw [updateRipple_tiles_length]
    exact hlen1
  have h1 := hd 0 hlen0 hlen1
  have h2 := ha 0 hlen0 hlen2
  have hfirst : pairState.tiles.get ⟨0, hlen0⟩ = mkTile 0 0 := rfl
  rw [hfirst] at h1 h2
  refine ⟨hMax, ?_, ?_⟩
  · rw [List.getD_eq_getElem _ _ hlen1]
    exact h1
  · rw [List.getD_eq_getElem _ _ hlen2]
    exact h2

/-- **C2, counterexample.**  With the 3×1 grid (`maxRippleDist = 2`,
`cycleLength = 4`, tempo 60, multiplier 1, so radial speed 1) and the
non-negative time step `dt = 4`, the raw increment lands exactly on the
cycle length; the wrap condition `ripplePos > cycleLength` is strict, so
afterwards `radialPosition = cycleLength`, refuting
`radialPosition < cycleLength`. -/
theorem C2_counterexample :
    ¬((updateRipple 4 (computeRippleDistances rowState)).ripplePos <
      (updateRipple 4 (computeRippleDistances rowState)).rippleCycleLength) := by
  obtain ⟨hO, hM, hC, hP, hB, hS⟩ := computeRippleDistances_rowState
  have hg := @guard_passes (computeRippleDistances rowState)
    (by rw [hO]; simp) (by rw [hM]; norm_num)
  rw [updateRipple_not_skipped hg]
  show ¬(newRipplePos 4 (computeRippleDistances rowState) <
    effectiveCycle (computeRippleDistances rowState))
  unfold newRipplePos effectiveCycle radialSpeed beatsPerSecond distancePerBeat
  rw [hC, hP, hB, hM, hS]
  norm_num

/-- **C2, amended.**  For every non-negative `dt`, non-negative tempo and
speed multiplier, and `maxRippleDist > 0`, one `updateRipple` advance
leaves `0 ≤ radialPosition ≤ cycleLength`; the upper bound is strict
except exactly in the boundary case where the raw advanced position
equals the cycle length, in which case `radialPosition = cycleLength`
(the wrap condition `ripplePos > rippleCycleLength` triggers only on
strict excess).  Multiple wraps in one large step are handled by the
floored-modulo subtraction. -/
theorem C2_wrap_bounds (dt : ℝ) (s : RippleState)
    (hOrig : ¬s.originTile = none) (hMax : 0 < s.maxRippleDist)
    (hPos : 0 ≤ s.ripplePos) (hBpm : 0 ≤ s.bpm) (hSpd : 0 ≤ s.rippleSpeed)
    (hdt : 0 ≤ dt) :
    0 ≤ (updateRipple dt s).ripplePos ∧
    (updateRipple dt s).ripplePos ≤ (updateRipple dt s).rippleCycleLength ∧
    ((updateRipple dt s).ripplePos < (updateRipple dt s).rippleCycleLength ∨
      (s.ripplePos + radialSpeed s * dt = effectiveCycle s ∧
        (updateRipple dt s).ripplePos =
          (updateRipple dt s).rippleCycleLength)) := by
  have hg := guard_passes hOrig hMax
  rw [updateRipple_not_skipped hg]
  show 0 ≤ newRipplePos dt s ∧ newRipplePos dt s ≤ effectiveCycle s ∧
    (newRipplePos dt s < effectiveCycle s ∨
      (s.ripplePos + radialSpeed s * dt = effectiveCycle s ∧
        newRipplePos dt s = effectiveCycle s))
  have hL : 0 < effectiveCycle s := by
    unfold effectiveCycle
    split_ifs with h
    · linarith
    · linarith [not_le.mp h]
  have hinc : 0 ≤ radialSpeed s * dt := by
    unfold radialSpeed beatsPerSecond distancePerBeat
    have h1 : 0 ≤ s.bpm / 60 := by positivity
    have h2 : 0 ≤ s.maxRippleDist / 2 := by positivity
    exact mul_nonneg (mul_nonneg (mul_nonneg h1 hSpd) h2) hdt
  rw [newRipplePos_eq]
  set pos1 := s.ripplePos + radialSpeed s * dt with hpos1
  have hpos1nn : 0 ≤ pos1 := by linarith
  split_ifs with hw
  · have hfr : pos1 - effectiveCycle s * (⌊pos1 / effectiveCycle s⌋ : ℤ) =
        effectiveCycle s * Int.fract (pos1 / effectiveCycle s) := by
      rw [Int.fract]
      rw [mul_sub]
      rw [mul_div_cancel₀ _ (ne_of_gt hL)]
    rw [hfr]
    have h0 : 0 ≤ effectiveCycle s * Int.fract (pos1 / effectiveCycle s) :=
      mul_nonneg hL.le (Int.fract_nonneg _)
    have h1 : effectiveCycle s * Int.fract (pos1 / effectiveCycle s) <
        effectiveCycle s := by
      calc effectiveCycle s * Int.fract (pos1 / effectiveCycle s)
          < effectiveCycle s * 1 :=
            (mul_lt_mul_left hL).mpr (Int.fract_lt_one _)
        _ = effectiveCycle s := mul_one _
    exact ⟨h0, h1.le, Or.inl h1⟩
  · have hle : pos1 ≤ effectiveCycle s := not_lt.mp hw
    rcases lt_or_eq_of_le hle with hlt | heq
    · exact ⟨hpos1nn, hle, Or.inl hlt⟩
    · exact ⟨hpos1nn, hle, Or.inr ⟨heq, heq⟩⟩

/-- Witness for the amended C2 at the concrete 3×1 state with `dt = 1`. -/
theorem C2_witness :
    (¬(computeRippleDistances rowState).originTile = none) ∧
    0 < (computeRippleDistances rowState).maxRippleDist ∧
    0 ≤ (updateRipple 1 (computeRippleDistances rowState)).ripplePos ∧
    (updateRipple 1 (computeRippleDistances rowState)).ripplePos ≤
      (updateRipple 1 (computeRippleDistances rowState)).rippleCycleLength := by
  obtain ⟨hO, hM, hC, hP, hB, hS⟩ := computeRippleDistances_rowState
  have hOrig : ¬(computeRippleDistances rowState).originTile = none := by
    rw [hO]; simp
  have hMax : 0 < (computeRippleDistances rowState).maxRippleDist := by
    rw [hM]; norm_num
  obtain ⟨h1, h2, _⟩ := C2_wrap_bounds 1 (computeRippleDistances rowState)
    hOrig hMax (by rw [hP]) (by rw [hB]; norm_num) (by rw [hS]; norm_num)
    (by norm_num)
  exact ⟨hOrig, hMax, h1, h2⟩

/-- **C3, counterexample.**  With threshold `0.7` and the inclusive `>=`
comparison, the step whose current amplitude is `0.70` (previous `0.69`)
fires, and the `0.70 → 0.71` step does not (its previous amplitude `0.70`
is not `< 0.7`), refuting "the trigger occurs at the 0.70→0.71 step". -/
theorem C3_counterexample :
    rippleTriggerFired 0.69 0.7 ∧ ¬rippleTriggerFired 0.7 0.71 := by
  constructor
  · exact ⟨by norm_num, by norm_num⟩
  · rintro ⟨h1, -⟩
    norm_num at h1

/-- **C3, amended.**  A cell whose amplitude over three consecutive frames
is exactly `0.69, 0.70, 0.71` (previous amplitude starting below `0.7`)
fires exactly one trigger, and that trigger occurs at the `0.69 → 0.70`
step, where the amplitude first reaches the inclusive `>= 0.7` bound. -/
theorem C3_threshold_steps (p0 : ℝ) (h : p0 < 0.7) :
    ¬rippleTriggerFired p0 0.69 ∧ rippleTriggerFired 0.69 0.7 ∧
      ¬rippleTriggerFired 0.7 0.71 := by
  refine ⟨?_, ⟨by norm_num, by norm_num⟩, ?_⟩
  · rintro ⟨-, h2⟩
    norm_num at h2
  · rintro ⟨h1, -⟩
    norm_num at h1

/-- Witness for the amended C3 with starting previous amplitude `0`. -/
theorem C3_witness :
    (0 : ℝ) < 0.7 ∧
    (¬rippleTriggerFired 0 0.69 ∧ rippleTriggerFired 0.69 0.7 ∧
      ¬rippleTriggerFired 0.7 0.71) :=
  ⟨by norm_num, C3_threshold_steps 0 (by norm_num)⟩

/-! ## Degenerate single-cell grid -/

theorem computeRippleDistances_singleState :
    (computeRippleDistances singleState).maxRippleDist = 0 ∧
    (computeRippleDistances singleState).rippleCycleLength = 2 ∧
    (computeRippleDistances singleState).tiles = [mkTile 0 0] := by
  unfold computeRippleDistances singleState mkTile
  norm_num [Real.sqrt_zero]

theorem updateRipple_fixed_of_nonpos {dt : ℝ} {s : RippleState}
    (h : s.maxRippleDist ≤ 0) : updateRipple dt s = s := by
  unfold updateRipple
  rw [if_pos (Or.inr h)]

/-- **C7, counterexample.**  On the single-cell grid the distance-field
computation leaves `maxRippleDist = 0`: there is no minimum positive floor
on the maximum radius. -/
theorem C7_counterexample :
    (computeRippleDistances singleState).maxRippleDist = 0 ∧
    ¬(0 < (computeRippleDistances singleState).maxRippleDist) := by
  obtain ⟨hM, -, -⟩ := computeRippleDistances_singleState
  exact ⟨hM, by rw [hM]; norm_num⟩

/-- **C7, amended.**  On the degenerate single-cell grid no operation
fails: the distance-field computation succeeds with `maxRippleDist = 0`
(not a positive floor); `rippleCycleLength = maxRippleDist + 2 = 2` stays
positive; the `maxRippleDist <= 0` guard makes every subsequent
`updateRipple` frame a no-op, so the amplitude sampler (and its division)
is never reached and every tile's `currentAmp` stays `0 ∈ [0, 1]` across
arbitrarily many frames, 10,000 included. -/
theorem C7_degenerate_safe :
    (computeRippleDistances singleState).maxRippleDist = 0 ∧
    (computeRippleDistances singleState).rippleCycleLength = 2 ∧
    0 < (computeRippleDistances singleState).rippleCycleLength ∧
    ∀ (dt : ℝ) (n : ℕ),
      (updateRipple dt)^[n] (computeRippleDistances singleState) =
        computeRippleDistances singleState ∧
      ∀ t ∈ ((updateRipple dt)^[n]
          (computeRippleDistances singleState)).tiles,
        0 ≤ t.currentAmp ∧ t.currentAmp ≤ 1 := by
  obtain ⟨hM, hC, hT⟩ := computeRippleDistances_singleState
  have hfix : ∀ dt : ℝ, ∀ n : ℕ,
      (updateRipple dt)^[n] (computeRippleDistances singleState) =
        computeRippleDistances singleState := by
    intro dt n
    apply Function.iterate_fixed
    exact updateRipple_fixed_of_nonpos (by rw [hM])
  refine ⟨hM, hC, by rw [hC]; norm_num, ?_⟩
  intro dt n
  refine ⟨hfix dt n, ?_⟩
  intro t ht
  rw [hfix dt n, hT] at ht
  rcases List.mem_singleton.mp ht with rfl
  exact ⟨le_refl 0, by norm_num [mkTile]⟩

/-- Witness for the amended C7: 10,000 frames leave the degenerate state
untouched and its cycle length positive. -/
theorem C7_witness :
    (updateRipple 1)^[10000] (computeRippleDistances singleState) =
      computeRippleDistances singleState ∧
    0 < (computeRippleDistances singleState).rippleCycleLength := by
  obtain ⟨-, -, hC, hAll⟩ := C7_degenerate_safe
  exact ⟨(hAll 1 10000).1, hC⟩

/-! ## Voice dispatch -/

/-- **C8, counterexample.**  The pan of `connectVoiceToOutput` maps the
leftmost column to `-0.8` and the rightmost to `0.8`, not to `-1` and `1`:
the normalized column is fed through `lerp(-0.8, 0.8, ·)`. -/
theorem C8_counterexample :
    panForCol 0 = -0.8 ∧ panForCol 0 ≠ -1 ∧
    panForCol 7 = 0.8 ∧ panForCol 7 ≠ 1 := by
  unfold panForCol lerp GRID_COLS
  norm_num

/-- **C8, amended.**  For every triggered voice, the stereo pan is the
cell's column normalized across the column count and mapped linearly onto
`[-0.8, 0.8]`: `pan = -0.8 + 1.6 * (col / 7)`, with the leftmost column at
`-0.8` and the rightmost at `0.8`. -/
theorem C8_pan_range (col : ℤ) (h0 : 0 ≤ col) (h7 : col ≤ 7) :
    panForCol col = -0.8 + 1.6 * ((col : ℝ) / 7) ∧
    -0.8 ≤ panForCol col ∧ panForCol col ≤ 0.8 := by
  have hc0 : (0 : ℝ) ≤ (col : ℝ) := by exact_mod_cast h0
  have hc7 : (col : ℝ) ≤ 7 := by exact_mod_cast h7
  have hq0 : (0 : ℝ) ≤ (col : ℝ) / 7 := by positivity
  have hq1 : (col : ℝ) / 7 ≤ 1 := by
    rw [div_le_one (by norm_num)]
    exact hc7
  have hval : panForCol col = -0.8 + 1.6 * ((col : ℝ) / 7) := by
    unfold panForCol lerp GRID_COLS
    rw [if_pos (by norm_num : (1 : ℤ) < 8)]
    push_cast
    ring_nf
  refine ⟨hval, ?_, ?_⟩ <;> rw [hval] <;> nlinarith

/-- Witness for the amended C8 at column `3`. -/
theorem C8_witness :
    (0 : ℤ) ≤ 3 ∧ (3 : ℤ) ≤ 7 ∧
    panForCol 3 = -0.8 + 1.6 * (((3 : ℤ) : ℝ) / 7) ∧
    -0.8 ≤ panForCol 3 ∧ panForCol 3 ≤ 0.8 := by
  obtain ⟨h1, h2, h3⟩ := C8_pan_range 3 (by norm_num) (by norm_num)
  exact ⟨by norm_num, by norm_num, h1, h2, h3⟩

/-- **C9, counterexample.**  For the woodblock family a higher normalized
state yields a strictly shorter duration: at `stateCount = 5`, state `4`
(normalized `1`) gives `0.04` s and state `0` (normalized `0`) gives
`0.14` s, refuting "a higher normalized state never yields a shorter
duration". -/
theorem C9_counterexample :
    stateNorm ⟨0, 0, .bar, 0, 5, 0, 0, 0, 0⟩ <
      stateNorm ⟨0, 0, .bar, 4, 5, 0, 0, 0, 0⟩ ∧
    woodBlockDuration (stateNorm ⟨0, 0, .bar, 4, 5, 0, 0, 0, 0⟩) <
      woodBlockDuration (stateNorm ⟨0, 0, .bar, 0, 5, 0, 0, 0, 0⟩) := by
  unfold stateNorm woodBlockDuration lerp
  norm_num

/-- **C9, amended.**  Every family's duration is a linear interpolation
between family-specific min and max values and is monotone in its driving
parameter, but the direction is family-specific: bell and metallic are
non-decreasing in the trigger intensity, chord is non-decreasing in the
normalized state, and woodblock is non-increasing in the normalized state
(a higher state gives a shorter, tighter tick). -/
theorem C9_duration_monotone :
    (∀ a b : ℝ, a ≤ b → bellDuration a ≤ bellDuration b) ∧
    (∀ a b : ℝ, a ≤ b → metallicDuration a ≤ metallicDuration b) ∧
    (∀ a b : ℝ, a ≤ b → chordDuration a ≤ chordDuration b) ∧
    (∀ a b : ℝ, a ≤ b → woodBlockDuration b ≤ woodBlockDuration a) := by
  refine ⟨?_, ?_, ?_, ?_⟩ <;> intro a b h <;>
    simp only [bellDuration, metallicDuration, chordDuration,
      woodBlockDuration, lerp] <;>
    linarith

/-- Witness for the amended C9 at the endpoints `0 ≤ 1`. -/
theorem C9_witness :
    bellDuration 0 ≤ bellDuration 1 ∧
    metallicDuration 0 ≤ metallicDuration 1 ∧
    chordDuration 0 ≤ chordDuration 1 ∧
    woodBlockDuration 1 ≤ woodBlockDuration 0 := by
  obtain ⟨h1, h2, h3, h4⟩ := C9_duration_monotone
  exact ⟨h1 0 1 (by norm_num), h2 0 1 (by norm_num), h3 0 1 (by norm_num),
    h4 0 1 (by norm_num)⟩

/-! ## One trigger per wavefront pass -/

theorem rippleAmp_anti {d x y : ℝ} (h : |d - y| ≤ |d - x|) :
    rippleAmp d x ≤ rippleAmp d y := by
  unfold rippleAmp
  rw [Real.exp_le_exp]
  have h0 : 0 ≤ |d - y| := abs_nonneg _
  have h1 : |d - y| / 0.9 ≤ |d - x| / 0.9 := by gcongr
  have h2 : (0 : ℝ) ≤ |d - y| / 0.9 := by positivity
  nlinarith [mul_self_le_mul_self h2 h1]

/-- The superlevel sets of the Gaussian shell are intervals: a point
between two positions whose amplitudes both reach `θ` also reaches `θ`. -/
theorem rippleAmp_between {d x y z θ : ℝ} (hxy : x ≤ y) (hyz : y ≤ z)
    (hx : θ ≤ rippleAmp d x) (hz : θ ≤ rippleAmp d z) :
    θ ≤ rippleAmp d y := by
  rcases le_total (d - y) 0 with h | h
  · have habs : |d - y| ≤ |d - z| := by
      rw [abs_of_nonpos h, abs_of_nonpos (by linarith)]
      linarith
    exact le_trans hz (rippleAmp_anti habs)
  · have habs : |d - y| ≤ |d - x| := by
      rw [abs_of_nonneg h, abs_of_nonneg (by linarith)]
      linarith
    exact le_trans hx (rippleAmp_anti habs)

/-- Invariant of iterated `updateRipple dt` frames from a freshly reset
position, as long as the accumulated advance stays within the cycle (no
wrap): the configuration fields persist, the radial position after `k`
frames is `k * radialSpeed * dt`, distances persist, and each tile's
`prevAmp` after frame `k ≥ 1` is the amplitude sampled at the `k`-th
position. -/
theorem iterRipple_invariant (dt : ℝ) (s : RippleState)
    (hO : ¬s.originTile = none) (hM : 0 < s.maxRippleDist)
    (hL : 0 < s.rippleCycleLength) (hP0 : s.ripplePos = 0)
    (hinc : 0 ≤ radialSpeed s * dt)
    (N : ℕ) (hN : (N : ℝ) * (radialSpeed s * dt) ≤ s.rippleCycleLength) :
    ∀ k, k ≤ N →
      ((updateRipple dt)^[k] s).originTile = s.originTile ∧
      ((updateRipple dt)^[k] s).maxRippleDist = s.maxRippleDist ∧
      ((updateRipple dt)^[k] s).bpm = s.bpm ∧
      ((updateRipple dt)^[k] s).rippleSpeed = s.rippleSpeed ∧
      ((updateRipple dt)^[k] s).rippleCycleLength = s.rippleCycleLength ∧
      ((updateRipple dt)^[k] s).ripplePos = (k : ℝ) * (radialSpeed s * dt) ∧
      ((updateRipple dt)^[k] s).tiles.length = s.tiles.length ∧
      ∀ i (hi : i < s.tiles.length)
        (hik : i < ((updateRipple dt)^[k] s).tiles.length),
        (((updateRipple dt)^[k] s).tiles.get ⟨i, hik⟩).dist =
          (s.tiles.get ⟨i, hi⟩).dist ∧
        (((updateRipple dt)^[k] s).tiles.get ⟨i, hik⟩).prevAmp =
          (if k = 0 then (s.tiles.get ⟨i, hi⟩).prevAmp
            else rippleAmp (s.tiles.get ⟨i, hi⟩).dist
              ((k : ℝ) * (radialSpeed s * dt))) := by
  intro k
  induction k with
  | zero =>
    intro _
    refine ⟨rfl, rfl, rfl, rfl, rfl, ?_, rfl, ?_⟩
    · show s.ripplePos = ((0 : ℕ) : ℝ) * (radialSpeed s * dt)
      rw [hP0]
      norm_num
    · intro i hi hik
      refine ⟨rfl, ?_⟩
      rw [if_pos rfl]
      rfl
  | succ k ih =>
    intro hkN
    obtain ⟨h1, h2, h3, h4, h5, h6, h7, h8⟩ := ih (Nat.le_of_succ_le hkN)
    have hrs : radialSpeed ((updateRipple dt)^[k] s) = radialSpeed s := by
      unfold radialSpeed beatsPerSecond distancePerBeat
      rw [h2, h3, h4]
    have hec : effectiveCycle ((updateRipple dt)^[k] s) =
        s.rippleCycleLength := by
      unfold effectiveCycle
      rw [h5, if_neg (not_le.mpr hL)]
    have hgO : ¬((updateRipple dt)^[k] s).originTile = none := by
      rw [h1]; exact hO
    have hgM : 0 < ((updateRipple dt)^[k] s).maxRippleDist := by
      rw [h2]; exact hM
    have hcast : ((k : ℝ) + 1) * (radialSpeed s * dt) ≤
        (N : ℝ) * (radialSpeed s * dt) := by
      apply mul_le_mul_of_nonneg_right _ hinc
      have : ((k + 1 : ℕ) : ℝ) ≤ (N : ℝ) := by exact_mod_cast hkN
      push_cast at this
      linarith
    have hnr : newRipplePos dt ((updateRipple dt)^[k] s) =
        ((k + 1 : ℕ) : ℝ) * (radialSpeed s * dt) := by
      rw [newRipplePos_eq, hrs, h6, hec]
      have hle : (k : ℝ) * (radialSpeed s * dt) + radialSpeed s * dt ≤
          s.rippleCycleLength := by
        have : ((k : ℝ) + 1) * (radialSpeed s * dt) ≤ s.rippleCycleLength :=
          le_trans hcast hN
        linarith [this]
      rw [if_neg (not_lt.mpr hle)]
      push_cast
      ring
    have hupd := @updateRipple_not_skipped dt ((updateRipple dt)^[k] s)
      (guard_passes hgO hgM)
    rw [Function.iterate_succ_apply', hupd]
    refine ⟨h1, h2, h3, h4, hec, by rw [hnr], by simpa using h7, ?_⟩
    intro i hi hik
    have hik' : i < ((updateRipple dt)^[k] s).tiles.length := by
      rw [h7]; exact hi
    obtain ⟨hd, -⟩ := h8 i hi hik'
    constructor
    · rw [List.get_eq_getElem]
      simp only [List.getElem_map]
      rw [← hd, List.get_eq_getElem]
    · rw [List.get_eq_getElem]
      simp only [List.getElem_map]
      rw [if_neg (Nat.succ_ne_zero k)]
      rw [show (((updateRipple dt)^[k] s).tiles[i]).dist =
        (s.tiles.get ⟨i, hi⟩).dist from by rw [← hd, List.get_eq_getElem]]
      rw [hnr]

/-- Witness for C10 at concrete inputs. -/
theorem C10_witness :
    TileInv (mkBuiltTile .circle 0 0 0 0.5 2) ∧
    TileInv (advanceTileState ⟨0, 0, .bar, 4, 5, 0, 0, 0, 0⟩ 1) ∧
    TileInv (changeTileModule ⟨0, 0, .bar, 4, 5, 0, 0, 0, 0⟩ .circle) ∧
    TileInv (recallTileSnap ⟨0, 0, .bar, 4, 5, 0, 0, 0, 0⟩ ⟨.block, 99, 1⟩) := by
  obtain ⟨h1, h2, h3, h4⟩ := C10_tile_state_invariant
  refine ⟨h1 .circle 0 0 0 0.5 2 (by norm_num) ?_, h2 _ 1 ?_, h3 _ _, h4 _ _⟩
  · show (2 : ℤ) < moduleStateCount .circle - 1
    decide
  · exact ⟨by norm_num, by norm_num, by decide⟩

/-- **C4.**  For a cell at distance `d`, simulating `N` frames of
`updateRipple` at a fixed time step from a freshly reset radial position,
where the whole simulated advance stays within one cycle (`N` steps of
`radialSpeed * dt` do not exceed `cycleLength`, so the wavefront passes
the cell at most once) and the step is fine enough that some frame's
sampled amplitude reaches the `0.7` threshold (the amplitude does not jump
over the threshold band), yields exactly one trigger event for that cell,
regardless of the particular frame rate `dt`. -/
theorem C4_single_trigger_per_pass (dt : ℝ) (s : RippleState) (i N : ℕ)
    (hO : ¬s.originTile = none) (hM : 0 < s.maxRippleDist)
    (hL : 0 < s.rippleCycleLength) (hP0 : s.ripplePos = 0)
    (hi : i < s.tiles.length)
    (hprev : (s.tiles.get ⟨i, hi⟩).prevAmp = 0)
    (hinc : 0 < radialSpeed s * dt)
    (hN : (N : ℝ) * (radialSpeed s * dt) ≤ s.rippleCycleLength)
    (hHit : ∃ m : ℕ, 1 ≤ m ∧ m ≤ N ∧
      0.7 ≤ rippleAmp (s.tiles.get ⟨i, hi⟩).dist
        ((m : ℝ) * (radialSpeed s * dt))) :
    rippleTriggerCount dt s i N = 1 := by
  classical
  have hchar : ∀ k, k < N →
      (rippleFrameTriggered dt ((updateRipple dt)^[k] s) i ↔
        ((if k = 0 then (0 : ℝ)
            else rippleAmp (s.tiles.get ⟨i, hi⟩).dist
              ((k : ℝ) * (radialSpeed s * dt))) < 0.7 ∧
          0.7 ≤ rippleAmp (s.tiles.get ⟨i, hi⟩).dist
            (((k + 1 : ℕ) : ℝ) * (radialSpeed s * dt)))) := by
    intro k hk
    obtain ⟨h1, h2, h3, h4, h5, h6, h7, h8⟩ :=
      iterRipple_invariant dt s hO hM hL hP0 hinc.le N hN k hk.le
    have hik : i < ((updateRipple dt)^[k] s).tiles.length := by
      rw [h7]; exact hi
    obtain ⟨hd, hp⟩ := h8 i hi hik
    have hgO : ¬((updateRipple dt)^[k] s).originTile = none := by
      rw [h1]; exact hO
    have hgM : 0 < ((updateRipple dt)^[k] s).maxRippleDist := by
      rw [h2]; exact hM
    have hrs : radialSpeed ((updateRipple dt)^[k] s) = radialSpeed s := by
      unfold radialSpeed beatsPerSecond distancePerBeat
      rw [h2, h3, h4]
    have hec : effectiveCycle ((updateRipple dt)^[k] s) =
        s.rippleCycleLength := by
      unfold effectiveCycle
      rw [h5, if_neg (not_le.mpr hL)]
    have hnr : newRipplePos dt ((updateRipple dt)^[k] s) =
        ((k + 1 : ℕ) : ℝ) * (radialSpeed s * dt) := by
      rw [newRipplePos_eq, hrs, h6, hec]
      have hle : (k : ℝ) * (radialSpeed s * dt) + radialSpeed s * dt ≤
          s.rippleCycleLength := by
        have hcast : ((k : ℝ) + 1) * (radialSpeed s * dt) ≤
            (N : ℝ) * (radialSpeed s * dt) := by
          apply mul_le_mul_of_nonneg_right _ hinc.le
          have : ((k + 1 : ℕ) : ℝ) ≤ (N : ℝ) := by
            exact_mod_cast Nat.succ_le_of_lt hk
          push_cast at this
          linarith
        nlinarith [le_trans hcast hN]
      rw [if_neg (not_lt.mpr hle)]
      push_cast
      ring
    unfold rippleFrameTriggered rippleTriggerFired
    constructor
    · rintro ⟨-, hlen, ht1, ht2⟩
      have hcv : ((updateRipple dt)^[k] s).tiles.get ⟨i, hlen⟩ =
          ((updateRipple dt)^[k] s).tiles.get ⟨i, hik⟩ := rfl
      rw [hcv] at ht1 ht2
      rw [hp, hprev] at ht1
      rw [hd, hnr] at ht2
      exact ⟨ht1, ht2⟩
    · rintro ⟨ha, hb⟩
      refine ⟨guard_passes hgO hgM, hik, ?_, ?_⟩
      · rw [hp, hprev]
        exact ha
      · rw [hd, hnr]
        exact hb
  have hex : ∃ m : ℕ,
      0.7 ≤ rippleAmp (s.tiles.get ⟨i, hi⟩).dist
        (((m + 1 : ℕ) : ℝ) * (radialSpeed s * dt)) ∧ m + 1 ≤ N := by
    obtain ⟨m, hm1, hmN, hmb⟩ := hHit
    refine ⟨m - 1, ?_, ?_⟩
    · rw [Nat.sub_add_cancel hm1]
      exact hmb
    · rw [Nat.sub_add_cancel hm1]
      exact hmN
  obtain ⟨hbK, hKN⟩ := Nat.find_spec hex
  have hKlt : Nat.find hex < N := Nat.lt_of_succ_le hKN
  have hfK : rippleFrameTriggered dt ((updateRipple dt)^[Nat.find hex] s) i := by
    rw [hchar (Nat.find hex) hKlt]
    refine ⟨?_, hbK⟩
    by_cases hK0 : Nat.find hex = 0
    · rw [if_pos hK0]
      norm_num
    · rw [if_neg hK0]
      by_contra hc
      have hc' : 0.7 ≤ rippleAmp (s.tiles.get ⟨i, hi⟩).dist
          ((Nat.find hex : ℝ) * (radialSpeed s * dt)) := not_lt.mp hc
      have hPm : 0.7 ≤ rippleAmp (s.tiles.get ⟨i, hi⟩).dist
          (((Nat.find hex - 1 + 1 : ℕ) : ℝ) * (radialSpeed s * dt)) ∧
          Nat.find hex - 1 + 1 ≤ N := by
        rw [Nat.sub_add_cancel (Nat.one_le_iff_ne_zero.mpr hK0)]
        exact ⟨hc', Nat.le_of_succ_le hKN⟩
      exact Nat.find_min hex (by omega : Nat.find hex - 1 < Nat.find hex) hPm
  have huniq : ∀ j, j < N →
      rippleFrameTriggered dt ((updateRipple dt)^[j] s) i →
      j = Nat.find hex := by
    intro j hj hfj
    obtain ⟨hja, hjb⟩ := (hchar j hj).mp hfj
    have hKj : Nat.find hex ≤ j :=
      Nat.find_min' hex ⟨hjb, Nat.succ_le_of_lt hj⟩
    rcases eq_or_lt_of_le hKj with heq | hlt
    · exact heq.symm
    · exfalso
      have hj0 : j ≠ 0 := by omega
      rw [if_neg hj0] at hja
      have hmono1 : ((Nat.find hex + 1 : ℕ) : ℝ) * (radialSpeed s * dt) ≤
          (j : ℝ) * (radialSpeed s * dt) := by
        apply mul_le_mul_of_nonneg_right _ hinc.le
        exact_mod_cast Nat.succ_le_of_lt hlt
      have hmono2 : (j : ℝ) * (radialSpeed s * dt) ≤
          ((j + 1 : ℕ) : ℝ) * (radialSpeed s * dt) := by
        apply mul_le_mul_of_nonneg_right _ hinc.le
        push_cast
        linarith
      have := rippleAmp_between hmono1 hmono2 hbK hjb
      linarith
  unfold rippleTriggerCount
  apply Finset.card_eq_one.mpr
  refine ⟨Nat.find hex, ?_⟩
  ext j
  simp only [Finset.mem_filter, Finset.mem_range, Finset.mem_singleton]
  constructor
  · rintro ⟨hj, hfj⟩
    exact huniq j hj hfj
  · rintro rfl
    exact ⟨hKlt, hfK⟩

theorem computeRippleDistances_farState :
    (computeRippleDistances farState).tiles =
      [⟨2, 0, .circle, 0, 6, 0, 2, 0, 0⟩] ∧
    (computeRippleDistances farState).originTile = some (0, 0) ∧
    (computeRippleDistances farState).maxRippleDist = 2 ∧
    (computeRippleDistances farState).rippleCycleLength = 4 ∧
    (computeRippleDistances farState).ripplePos = 0 ∧
    (computeRippleDistances farState).bpm = 60 ∧
    (computeRippleDistances farState).rippleSpeed = 1 := by
  have h4 : Real.sqrt 4 = 2 := by
    rw [show (4 : ℝ) = 2 ^ 2 by norm_num, Real.sqrt_sq (by norm_num)]
  unfold computeRippleDistances farState mkTile
  norm_num [h4]

/-- Witness for C4: one tile at distance 2, radial speed 1, `dt = 0.5`,
8 frames covering exactly one cycle of length 4; the tile triggers exactly
once. -/
theorem C4_witness :
    0 < radialSpeed (computeRippleDistances farState) * 0.5 ∧
    ((8 : ℕ) : ℝ) * (radialSpeed (computeRippleDistances farState) * 0.5) ≤
      (computeRippleDistances farState).rippleCycleLength ∧
    rippleTriggerCount 0.5 (computeRippleDistances farState) 0 8 = 1 := by
  obtain ⟨hT, hO, hM, hC, hP, hB, hS⟩ := computeRippleDistances_farState
  have hOrig : ¬(computeRippleDistances farState).originTile = none := by
    rw [hO]; simp
  have hMax : 0 < (computeRippleDistances farState).maxRippleDist := by
    rw [hM]; norm_num
  have hCL : 0 < (computeRippleDistances farState).rippleCycleLength := by
    rw [hC]; norm_num
  have hsp : radialSpeed (computeRippleDistances farState) = 1 := by
    unfold radialSpeed beatsPerSecond distancePerBeat
    rw [hB, hS, hM]
    norm_num
  have hlen : (0 : ℕ) < (computeRippleDistances farState).tiles.length := by
    rw [hT]; norm_num
  have hgetT : (computeRippleDistances farState).tiles.get ⟨0, hlen⟩ =
      ⟨2, 0, .circle, 0, 6, 0, 2, 0, 0⟩ := by
    rw [List.get_eq_getElem]
    simp only [hT]
    rfl
  have hprev : ((computeRippleDistances farState).tiles.get ⟨0, hlen⟩).prevAmp
      = 0 := by
    rw [hgetT]
  have hinc : 0 < radialSpeed (computeRippleDistances farState) * 0.5 := by
    rw [hsp]; norm_num
  have hN8 : ((8 : ℕ) : ℝ) *
      (radialSpeed (computeRippleDistances farState) * 0.5) ≤
      (computeRippleDistances farState).rippleCycleLength := by
    rw [hsp, hC]; norm_num
  have hHit : ∃ m : ℕ, 1 ≤ m ∧ m ≤ 8 ∧
      0.7 ≤ rippleAmp
        ((computeRippleDistances farState).tiles.get ⟨0, hlen⟩).dist
        ((m : ℝ) * (radialSpeed (computeRippleDistances farState) * 0.5)) := by
    refine ⟨4, by norm_num, by norm_num, ?_⟩
    rw [hgetT, hsp]
    show (0.7 : ℝ) ≤ rippleAmp 2 (((4 : ℕ) : ℝ) * (1 * 0.5))
    unfold rippleAmp
    norm_num [Real.exp_zero]
  exact ⟨hinc, hN8, C4_single_trigger_per_pass 0.5
    (computeRippleDistances farState) 0 8 hOrig hMax hCL hP hlen hprev hinc
    hN8 hHit⟩

end Dichro
